import Mathlib

/-
Shallow embedding of the datatools repository core:
  - src/datatools/utils/json_utils.py        (expand_lists, expand_and_normalize, json_indexer)
  - src/datatools/utils/misc.py              (first_matching)
  - src/datatools/transforming/transforming_functions.py
      (search_in_rows, search_to_promote, search_to_promote_multi,
       find_headers_to_promote, contains_one_of, contains_multiple_of,
       promote_nth_row_to_headers)
Python exceptions are modelled with Option / Except; in-place mutation of the
inputs is modelled with explicit call wrappers that also return the state of
the input object after the call.
-/

namespace Datatools

/-- Scalar cell values: strings, integers, booleans, null (NaN). -/
inductive Val where
  | s : String → Val
  | n : Int → Val
  | b : Bool → Val
  | null : Val
deriving DecidableEq, Repr

/-- A JSON value: scalar, array, or string-keyed object (association list in
insertion order, mirroring Python dict order). -/
inductive Node where
  | scalar : Val → Node
  | seq : List Node → Node
  | map : List (String × Node) → Node

/-- A row is a Python dict in insertion order. -/
abbrev Row := List (String × Node)

/-
json_utils.expand_lists.

The Python function walks each dict of the array, rebinding list-valued
attributes in place, left to right.  When it clones a row for a declared
multi-row attribute it takes a shallow dict copy of the CURRENT state: keys
already visited hold their processed values, keys not yet visited still hold
their raw values, and the clone is never reprocessed.  We model the inner
loop as a recursion over the not-yet-visited suffix (todo) carrying the
already-visited prefix (done); the pair returned is (processed row, clones
appended to new_objects while processing this row, in append order).
-/
def expandEntries (multi : List String) (done : Row) : Row → Row × List Row
  | [] => (done, [])
  | (k, v) :: rest =>
    match v with
    | Node.seq l =>
      match l with
      | [] => expandEntries multi (done ++ [(k, Node.map [])]) rest
      | [x] => expandEntries multi (done ++ [(k, x)]) rest
      | x :: y :: t =>
        if multi.contains k then
          let clones := (y :: t).map (fun e => done ++ (k, e) :: rest)
          let res := expandEntries multi (done ++ [(k, x)]) rest
          (res.1, clones ++ res.2)
        else
          expandEntries multi (done ++ [(k, Node.map [])]) rest
    | _ => expandEntries multi (done ++ [(k, v)]) rest

/-- json_utils.expand_lists: processes every row in place and extends the
array with the master list new_objects at the very end. -/
def expand_lists (jsonArray : List Row) (multi : List String) : List Row :=
  let res := jsonArray.foldl
    (fun (acc : List Row × List Row) r =>
      let pr := expandEntries multi [] r
      (acc.1 ++ [pr.1], acc.2 ++ pr.2))
    ([], [])
  res.1 ++ res.2

/-- Call wrapper modelling the effect of expand_lists on the caller: the
function mutates json_array in place and returns that same object, so after
the call the caller holds the processed-and-extended array.  First component
is the return value, second is the content of the caller's array after the
call. -/
def expand_lists_call (jsonArray : List Row) (multi : List String) :
    List Row × List Row :=
  (expand_lists jsonArray multi, expand_lists jsonArray multi)

/-- Flattening step of pd.json_normalize: nested dicts become dot-joined
column names, everything else (scalars, lists) is kept as an opaque leaf. -/
def flattenEntry (pre : String) : Node → List (String × Node)
  | Node.map m =>
    m.attach.flatMap (fun x => flattenEntry (pre ++ "." ++ x.1.1) x.1.2)
  | v => [(pre, v)]
termination_by nd => sizeOf nd
decreasing_by
  obtain ⟨⟨k, v⟩, hmem⟩ := x
  have h1 := List.sizeOf_lt_of_mem hmem
  simp at h1 ⊢
  omega

/-- Flatten one row: each top-level entry is flattened under its key. -/
def flattenRow (r : Row) : List (String × Node) :=
  r.flatMap (fun kv => flattenEntry kv.1 kv.2)

/-- First-occurrence deduplication (Python set/dict key order model). -/
def dedupFirst (l : List String) : List String :=
  l.foldl (fun acc x => if acc.contains x then acc else acc ++ [x]) []

/-- The result of pd.json_normalize: an ordered column-name list (union of
flattened keys in discovery order) plus the flattened rows. -/
structure Frame where
  cols : List String
  cells : List (List (String × Node))

/-- pd.json_normalize on a list of dicts. -/
def json_normalize (rows : List Row) : Frame :=
  let flat := rows.map flattenRow
  { cols := dedupFirst (flat.flatMap (fun r => r.map Prod.fst)),
    cells := flat }

/-
json_utils.expand_and_normalize.

column_filter is optional (None in Python).  The final step of the source,
  existing_columns = [col for col in column_filter if col in normalized_df.columns]
iterates column_filter unconditionally, so when column_filter is None the
call raises TypeError (NoneType is not iterable); that exception is modelled
as the value none.
-/
def expand_and_normalize (data : List Row) (columnFilter : Option (List String))
    (multiRowData : List String) : Option Frame :=
  let jsonKeys : List String :=
    match columnFilter with
    | none => dedupFirst (data.flatMap (fun row => row.map Prod.fst))
    | some cf => dedupFirst (cf.map (fun c => (c.splitOn ".").headD c))
  let filtered := data.map (fun row =>
    jsonKeys.filterMap (fun k =>
      (row.find? (fun kv => kv.1 == k)).map (fun kv => (k, kv.2))))
  let expanded := expand_lists filtered multiRowData
  let normalized := json_normalize expanded
  match columnFilter with
  | none => none
  | some cf =>
    some { cols := cf.filter (fun c => normalized.cols.contains c),
           cells := normalized.cells }

/-- Index steps: a string key or an integer position. -/
inductive Ix where
  | str : String → Ix
  | pos : Int → Ix

/-- The one failure kind of the path indexer (KeyError / IndexError /
TypeError in Python, all surfaced to the caller). -/
inductive JErr where
  | pathNotFound
deriving DecidableEq

/-- Python subscript normalization: a negative position counts from the end;
the result is the in-range natural index, if any. -/
def pyIndex (len : Nat) (i : Int) : Option Nat :=
  let j := if i < 0 then i + len else i
  if 0 ≤ j ∧ j < (len : Int) then some j.toNat else none

/-- Python list subscription. -/
def pyListGet (l : List Node) (i : Int) : Option Node :=
  (pyIndex l.length i).map (fun j => l.getD j (Node.scalar Val.null))

/-- Python string subscription: an in-range position yields the one-character
string at that position. -/
def pyStrGet (s : String) (i : Int) : Option String :=
  (pyIndex s.data.length i).map (fun j => String.mk [s.data.getD j 'x'])

/-- One step of json_data[key]: dict lookup, list subscription, string
subscription; everything else raises. -/
def getStep (nd : Node) (ix : Ix) : Except JErr Node :=
  match nd, ix with
  | Node.map m, Ix.str s =>
    match m.find? (fun kv => kv.1 == s) with
    | some kv => Except.ok kv.2
    | none => Except.error JErr.pathNotFound
  | Node.map _, Ix.pos _ => Except.error JErr.pathNotFound
  | Node.seq l, Ix.pos i =>
    match pyListGet l i with
    | some v => Except.ok v
    | none => Except.error JErr.pathNotFound
  | Node.seq _, Ix.str _ => Except.error JErr.pathNotFound
  | Node.scalar (Val.s str), Ix.pos i =>
    match pyStrGet str i with
    | some c => Except.ok (Node.scalar (Val.s c))
    | none => Except.error JErr.pathNotFound
  | Node.scalar _, _ => Except.error JErr.pathNotFound

/-- json_utils.json_indexer: for key in index: json_data = json_data[key]. -/
def json_indexer (jsonData : Node) (index : List Ix) : Except JErr Node :=
  index.foldlM getStep jsonData

/-- Failure condition of a single indexing step, spelled out by cases: a key
missing from a string-keyed mapping (or an integer used on one), a position
outside the Python range of a sequence (or a non-position used on one), a
non-string scalar indexed at all, or a string scalar indexed outside its
Python range or by a key. -/
def stepFailsB (nd : Node) (ix : Ix) : Bool :=
  match nd, ix with
  | Node.map m, Ix.str s => ! m.any (fun kv => kv.1 == s)
  | Node.map _, Ix.pos _ => true
  | Node.seq l, Ix.pos i =>
    ! (decide (-(l.length : Int) ≤ i) && decide (i < (l.length : Int)))
  | Node.seq _, Ix.str _ => true
  | Node.scalar (Val.s str), Ix.pos i =>
    ! (decide (-(str.data.length : Int) ≤ i) && decide (i < (str.data.length : Int)))
  | Node.scalar _, _ => true

/-- Some step along the path fails. -/
def failsAlongB : Node → List Ix → Bool
  | _, [] => false
  | nd, ix :: rest =>
    stepFailsB nd ix ||
      (match getStep nd ix with
       | Except.ok nd2 => failsAlongB nd2 rest
       | Except.error _ => false)

/-- The node reached by descending the path left to right (stops at the
current node if a step fails; only used under the no-failure hypothesis). -/
def descend : Node → List Ix → Node
  | nd, [] => nd
  | nd, ix :: rest =>
    match getStep nd ix with
    | Except.ok nd2 => descend nd2 rest
    | Except.error _ => nd

/-
transforming_functions.py.  A pandas DataFrame is modelled as an ordered
column-label sequence plus its rows of cell values; the DataFrames handled by
these functions are rectangular (every row has one cell per column label).
-/
structure Table where
  labels : List Val
  rows : List (List Val)
deriving DecidableEq, Repr

/-- transforming_functions.promote_nth_row_to_headers: row n becomes the
header (NaN cells replaced by the placeholder label col) and all rows up to
and including n are discarded. -/
def promote_nth_row_to_headers (t : Table) (i : Nat) : Table :=
  { labels := (t.rows.getD i []).map (fun v => if v = Val.null then Val.s "col" else v),
    rows := t.rows.drop (i + 1) }

/-- transforming_functions.search_in_rows: boolean mask of rows whose value
set contains every search value, then idxmax (first True) if any, else None. -/
def search_in_rows (rows : List (List Val)) (searchValues : List Val) : Option Nat :=
  let isSubset := rows.map (fun r => searchValues.all (fun v => r.contains v))
  if isSubset.any (fun x => x) then some (isSubset.findIdx (fun x => x)) else none

/-- The mask-then-idxmax pattern of search_in_rows, with the row predicate
abstracted; search_in_rows is definitionally this pattern at the subset
predicate. -/
def idxmaxMask (P : List Val → Bool) (rows : List (List Val)) : Option Nat :=
  let flags := rows.map P
  if flags.any (fun x => x) then some (flags.findIdx (fun x => x)) else none

/-- transforming_functions.search_to_promote. -/
def search_to_promote (t : Table) (searchValues : List Val) (checkHeader : Bool) : Table :=
  if checkHeader && searchValues.all (fun v => t.labels.contains v) then t
  else
    match search_in_rows t.rows searchValues with
    | none => t
    | some i => promote_nth_row_to_headers t i

/-- transforming_functions.search_to_promote_multi: tries each group in
order; returns the first result that changed the table (df.equals check) or
whose required values are already column labels; otherwise the input. -/
def search_to_promote_multi (t : Table) (svm : List (List Val)) (checkHeader : Bool) : Table :=
  match svm with
  | [] => t
  | sv :: rest =>
    let newT := search_to_promote t sv checkHeader
    if newT ≠ t ∨ sv.all (fun v => t.labels.contains v) then newT
    else search_to_promote_multi t rest checkHeader

/-- transforming_functions.contains_one_of. -/
def contains_one_of (iterable : List Val) (searchValues : List Val) : Bool :=
  searchValues.any (fun v => iterable.contains v)

/-- transforming_functions.contains_multiple_of. -/
def contains_multiple_of (iterable : List Val) (svm : List (List Val)) : Bool :=
  svm.all (fun sv => contains_one_of iterable sv)

/-- The rows selected by the boolean mask df[is_header_row], in original
top-to-bottom order. -/
def matchedRows (t : Table) (svm : List (List Val)) : List (List Val) :=
  t.rows.filter (fun r => contains_multiple_of r svm)

/-- Python zip(*ls): tuples up to the length of the shortest list; the
default cell is never reached since the range stops at the minimum. -/
def pyZip (ls : List (List Val)) : List (List Val) :=
  match (ls.map List.length).min? with
  | none => []
  | some m => (List.range m).map (fun j => ls.map (fun r => r.getD j (Val.n 0)))

/-- misc.first_matching: for each sub-iterable, the first element that is one
of the search keys, else its first element; an empty sub-iterable with no
match raises IndexError, modelled as none. -/
def first_matching (searchSpace : List (List Val)) (keys : List Val) : Option (List Val) :=
  match searchSpace with
  | [] => some []
  | sub :: rest =>
    let el :=
      match sub.find? (fun x => keys.contains x) with
      | some x => some x
      | none => sub.head?
    match el, first_matching rest keys with
    | some x, some xs => some (x :: xs)
    | _, _ => none

/-
transforming_functions.find_headers_to_promote.

The source collects the matching rows (optionally preceded by the current
labels), builds pd.MultiIndex.from_tuples(list(zip(*rows_with_headers))) and
assigns it to df.columns, then collapses it with misc.first_matching.  The
data rows of df are never touched.  MultiIndex.from_tuples raises on an empty
tuple list, and assigning a label sequence of the wrong length raises in
pandas; both exceptions are modelled as none.
-/
def find_headers_to_promote (t : Table) (svm : List (List Val)) (checkHeader : Bool) :
    Option Table :=
  let base := matchedRows t svm
  let rowsWithHeaders :=
    if checkHeader && contains_multiple_of t.labels svm then t.labels :: base else base
  let tuples := pyZip rowsWithHeaders
  if tuples.isEmpty then none
  else if tuples.length = t.labels.length then
    match first_matching tuples svm.flatten with
    | some newLabels => some { labels := newLabels, rows := t.rows }
    | none => none
  else none

/-- Call wrapper modelling the effect of find_headers_to_promote on the
caller: the function reassigns df.columns of the caller's frame in place and
returns the same frame, so on success the caller's table afterwards is the
result; if the call raises, it raises before any assignment succeeds, leaving
the caller's table as it was.  First component is the returned value, second
is the caller's table after the call. -/
def find_headers_to_promote_call (t : Table) (svm : List (List Val)) (checkHeader : Bool) :
    Option Table × Table :=
  match find_headers_to_promote t svm checkHeader with
  | some u => (some u, u)
  | none => (none, t)

/-- A row holds a raw (unprocessed) sequence value in some attribute. -/
def rowHasRawSeq (r : Row) : Bool :=
  r.any (fun kv => match kv.2 with | Node.seq _ => true | _ => false)

/-
Concrete data of the worked example in transforming_functions.main:
pd.DataFrame([[y4, rs, st], [1, 23, 6], [st, straw, hgf],
              [stanine, RawScore, rsdfs], [stanine, rs, rsdfs]])
with the default positional column labels 0, 1, 2, and the group sequence
[(st, stanine), (rs, RawScore)].
-/
def R0 : List Val := [Val.s "y4", Val.s "rs", Val.s "st"]

def R1 : List Val := [Val.n 1, Val.n 23, Val.n 6]

def R2 : List Val := [Val.s "st", Val.s "straw", Val.s "hgf"]

def R3 : List Val := [Val.s "stanine", Val.s "RawScore", Val.s "rsdfs"]

def R4 : List Val := [Val.s "stanine", Val.s "rs", Val.s "rsdfs"]

def mainTable : Table :=
  { labels := [Val.n 0, Val.n 1, Val.n 2], rows := [R0, R1, R2, R3, R4] }

def mainGroups : List (List Val) :=
  [[Val.s "st", Val.s "stanine"], [Val.s "rs", Val.s "RawScore"]]

/-
Helper lemmas, shared by the claim theorems below.
-/

theorem expand_lists_decomp (jsonArray : List Row) (multi : List String) :
    expand_lists jsonArray multi =
      jsonArray.map (fun r => (expandEntries multi [] r).1) ++
        (jsonArray.map (fun r => (expandEntries multi [] r).2)).flatten := by
  have H : ∀ (rows : List Row) (a b : List Row),
      rows.foldl
        (fun (acc : List Row × List Row) r =>
          let pr := expandEntries multi [] r
          (acc.1 ++ [pr.1], acc.2 ++ pr.2)) (a, b) =
      (a ++ rows.map (fun r => (expandEntries multi [] r).1),
       b ++ (rows.map (fun r => (expandEntries multi [] r).2)).flatten) := by
    intro rows
    induction rows with
    | nil => intro a b; simp
    | cons r rest ih =>
      intro a b
      simp only [List.foldl_cons, List.map_cons, List.flatten_cons]
      rw [ih]
      simp
  unfold expand_lists
  rw [H]
  simp

theorem idxmaxMask_cons (P : List Val → Bool) (r : List Val) (rest : List (List Val)) :
    idxmaxMask P (r :: rest) =
      cond (P r) (some 0) ((idxmaxMask P rest).map (fun i => i + 1)) := by
  unfold idxmaxMask
  simp only [List.map_cons, List.any_cons, List.findIdx_cons]
  cases hp : P r with
  | true => simp
  | false =>
    cases ha : (rest.map P).any (fun x => x) with
    | true => simp [ha]
    | false => simp [ha]

theorem idxmaxMask_eq_none_iff (P : List Val → Bool) (rows : List (List Val)) :
    idxmaxMask P rows = none ↔ ∀ r ∈ rows, P r = false := by
  induction rows with
  | nil => simp [idxmaxMask]
  | cons r rest ih =>
    rw [idxmaxMask_cons]
    cases hp : P r with
    | true => simp [hp]
    | false => simp [hp, ih]

theorem idxmaxMask_eq_some_iff (P : List Val → Bool) (rows : List (List Val)) (i : Nat) :
    idxmaxMask P rows = some i ↔
      i < rows.length ∧ P (rows.getD i []) = true ∧
        ∀ j, j < i → P (rows.getD j []) = false := by
  induction rows generalizing i with
  | nil => simp [idxmaxMask]
  | cons r rest ih =>
    rw [idxmaxMask_cons]
    cases hp : P r with
    | true =>
      simp only [cond_true]
      cases i with
      | zero => simp [hp]
      | succ k =>
        constructor
        · intro h
          exact absurd (Option.some.inj h) (by omega)
        · intro h
          have h0 := h.2.2 0 (by omega)
          rw [List.getD_cons_zero] at h0
          rw [hp] at h0
          exact absurd h0 (by simp)
    | false =>
      simp only [cond_false]
      cases i with
      | zero =>
        constructor
        · intro h
          cases hs : idxmaxMask P rest with
          | none => rw [hs] at h; simp at h
          | some k => rw [hs] at h; simp at h
        · intro h
          have h2 := h.2.1
          rw [List.getD_cons_zero] at h2
          rw [hp] at h2
          exact absurd h2 (by simp)
      | succ k =>
        constructor
        · intro h
          cases hs : idxmaxMask P rest with
          | none => rw [hs] at h; simp at h
          | some m =>
            rw [hs] at h
            simp at h
            have hm : m = k := by omega
            obtain ⟨h1, h2, h3⟩ := (ih m).mp hs
            subst hm
            refine ⟨by simp; omega, by simpa using h2, ?_⟩
            intro j hj
            cases j with
            | zero => simpa using hp
            | succ j2 =>
              have := h3 j2 (by omega)
              simpa using this
        · intro h
          obtain ⟨h1, h2, h3⟩ := h
          have hrest : idxmaxMask P rest = some k := by
            apply (ih k).mpr
            refine ⟨by simp at h1; omega, by simpa using h2, ?_⟩
            intro j hj
            have := h3 (j + 1) (by omega)
            simpa using this
          rw [hrest]
          rfl

theorem search_in_rows_eq_idxmaxMask (rows : List (List Val)) (sv : List Val) :
    search_in_rows rows sv = idxmaxMask (fun q => sv.all (fun v => q.contains v)) rows := rfl

theorem min?_const (l : List Nat) (n : Nat) (hne : l ≠ [])
    (hall : ∀ x ∈ l, x = n) : l.min? = some n := by
  cases l with
  | nil => exact absurd rfl hne
  | cons a rest =>
    have ha : a = n := hall a (by simp)
    rw [List.min?_cons]
    cases hmin : rest.min? with
    | none => simp [ha]
    | some m =>
      have hor : ∀ a b : Nat, min a b = a ∨ min a b = b := by
        intro a b
        rw [Nat.min_def]
        split
        · exact Or.inl rfl
        · exact Or.inr rfl
      have hm : m ∈ rest := List.min?_mem hor hmin
      have hmn : m = n := hall m (by simp [hm])
      simp [hmn, ha]

theorem first_matching_isSome (keys : List Val) :
    ∀ (ss : List (List Val)), (∀ sub ∈ ss, sub ≠ []) →
      ∃ ys, first_matching ss keys = some ys ∧ ys.length = ss.length := by
  intro ss
  induction ss with
  | nil => intro _; exact ⟨[], rfl, rfl⟩
  | cons sub rest ih =>
    intro h
    obtain ⟨ys, hys, hlen⟩ := ih (fun q hq => h q (by simp [hq]))
    have hsub : sub ≠ [] := h sub (by simp)
    cases hfind : sub.find? (fun x => keys.contains x) with
    | some x =>
      refine ⟨x :: ys, ?_, by simp [hlen]⟩
      unfold first_matching
      rw [hfind, hys]
    | none =>
      obtain ⟨a, as, rfl⟩ := List.exists_cons_of_ne_nil hsub
      refine ⟨a :: ys, ?_, by simp [hlen]⟩
      unfold first_matching
      rw [hfind]
      simp only [List.head?_cons]
      rw [hys]

theorem pyIndex_eq_none_iff (len : Nat) (i : Int) :
    pyIndex len i = none ↔ ¬(-(len : Int) ≤ i ∧ i < (len : Int)) := by
  constructor
  · intro h hc
    have hne : pyIndex len i ≠ none := by
      unfold pyIndex
      by_cases hneg : i < 0
      · have hin : 0 ≤ i + (len : Int) ∧ i + (len : Int) < (len : Int) := by omega
        simp [hneg, hin]
      · have hin : 0 ≤ i ∧ i < (len : Int) := by omega
        simp [hneg, hin]
    exact hne h
  · intro hc
    unfold pyIndex
    by_cases hneg : i < 0
    · have hout : ¬(0 ≤ i + (len : Int) ∧ i + (len : Int) < (len : Int)) := by omega
      simp only [hneg, if_true]
      rw [if_neg hout]
    · have hout : ¬(0 ≤ i ∧ i < (len : Int)) := by omega
      simp only [hneg, if_false]
      rw [if_neg hout]

theorem pyIndex_in_range_isSome (len : Nat) (i : Int)
    (hin : -(len : Int) ≤ i ∧ i < (len : Int)) : ∃ j, pyIndex len i = some j := by
  cases hx : pyIndex len i with
  | none => exact absurd ((pyIndex_eq_none_iff len i).mp hx) (not_not_intro hin)
  | some j => exact ⟨j, rfl⟩

theorem stepFailsB_pos_false (len : Nat) (i : Int)
    (hin : -(len : Int) ≤ i ∧ i < (len : Int)) :
    (!(decide (-(len : Int) ≤ i) && decide (i < (len : Int)))) = false := by
  rw [decide_eq_true hin.1, decide_eq_true hin.2]
  rfl

theorem stepFailsB_pos_true (len : Nat) (i : Int)
    (hout : ¬(-(len : Int) ≤ i ∧ i < (len : Int))) :
    (!(decide (-(len : Int) ≤ i) && decide (i < (len : Int)))) = true := by
  by_cases h1 : -(len : Int) ≤ i
  · by_cases h2 : i < (len : Int)
    · exact absurd ⟨h1, h2⟩ hout
    · rw [decide_eq_false h2]
      simp
  · rw [decide_eq_false h1]
    simp

theorem getStep_error_iff (nd : Node) (ix : Ix) :
    getStep nd ix = Except.error JErr.pathNotFound ↔ stepFailsB nd ix = true := by
  cases nd with
  | map m =>
    cases ix with
    | str s =>
      cases hfind : m.find? (fun kv => kv.1 == s) with
      | some kv =>
        have hmem := List.mem_of_find?_eq_some hfind
        have hpkv := List.find?_some hfind
        have hfb : (!m.any fun kv => kv.1 == s) = false := by
          simp only [Bool.not_eq_false']
          rw [List.any_eq_true]
          exact ⟨kv, hmem, hpkv⟩
        simp only [getStep, stepFailsB, hfind, hfb]
        constructor
        · intro h; exact absurd h (by simp)
        · intro h; exact absurd h (by simp)
      | none =>
        have hfb : (!m.any fun kv => kv.1 == s) = true := by
          simp only [Bool.not_eq_true']
          rw [List.any_eq_false]
          intro kv hkv
          simpa using List.find?_eq_none.mp hfind kv hkv
        simp only [getStep, stepFailsB, hfind, hfb]
    | pos i => simp [getStep, stepFailsB]
  | seq l =>
    cases ix with
    | str s => simp [getStep, stepFailsB]
    | pos i =>
      by_cases hin : -((l.length : Nat) : Int) ≤ i ∧ i < ((l.length : Nat) : Int)
      · obtain ⟨j, hj⟩ := pyIndex_in_range_isSome l.length i hin
        have hv : pyListGet l i = some (l.getD j (Node.scalar Val.null)) := by
          rw [pyListGet, hj]
          rfl
        simp only [getStep, stepFailsB, hv, stepFailsB_pos_false l.length i hin]
        constructor
        · intro h; exact absurd h (by simp)
        · intro h; exact absurd h (by simp)
      · have hnone : pyListGet l i = none := by
          rw [pyListGet, (pyIndex_eq_none_iff l.length i).mpr hin]
          rfl
        simp only [getStep, stepFailsB, hnone, stepFailsB_pos_true l.length i hin]
  | scalar v =>
    cases v with
    | s str =>
      cases ix with
      | str s2 => simp [getStep, stepFailsB]
      | pos i =>
        by_cases hin : -((str.data.length : Nat) : Int) ≤ i ∧ i < ((str.data.length : Nat) : Int)
        · obtain ⟨j, hj⟩ := pyIndex_in_range_isSome str.data.length i hin
          have hv : pyStrGet str i = some (String.mk [str.data.getD j 'x']) := by
            rw [pyStrGet, hj]
            rfl
          simp only [getStep, stepFailsB, hv, stepFailsB_pos_false str.data.length i hin]
          constructor
          · intro h; exact absurd h (by simp)
          · intro h; exact absurd h (by simp)
        · have hnone : pyStrGet str i = none := by
            rw [pyStrGet, (pyIndex_eq_none_iff str.data.length i).mpr hin]
            rfl
          simp only [getStep, stepFailsB, hnone, stepFailsB_pos_true str.data.length i hin]
    | n x =>
      cases ix <;> simp [getStep, stepFailsB]
    | b x =>
      cases ix <;> simp [getStep, stepFailsB]
    | null =>
      cases ix <;> simp [getStep, stepFailsB]

theorem find_headers_to_promote_false_eq (t : Table) (svm : List (List Val)) :
    find_headers_to_promote t svm false =
      (let tuples := pyZip (matchedRows t svm)
       if tuples.isEmpty then none
       else if tuples.length = t.labels.length then
         match first_matching tuples svm.flatten with
         | some newLabels => some { labels := newLabels, rows := t.rows }
         | none => none
       else none) := rfl

theorem find_headers_no_match (t : Table) (svm : List (List Val))
    (h : ∀ r ∈ t.rows, contains_multiple_of r svm = false) :
    find_headers_to_promote t svm false = none := by
  have hbase : matchedRows t svm = [] := by
    unfold matchedRows
    rw [List.filter_eq_nil_iff]
    intro r hr
    simp [h r hr]
  have hz : pyZip ([] : List (List Val)) = [] := rfl
  rw [find_headers_to_promote_false_eq]
  simp only [hbase, hz]
  rfl

theorem search_to_promote_unchanged (t : Table) (sv : List Val) (ch : Bool)
    (h : search_in_rows t.rows sv = none) : search_to_promote t sv ch = t := by
  unfold search_to_promote
  cases hcond : (ch && sv.all (fun v => t.labels.contains v)) with
  | true => simp [hcond]
  | false =>
    simp only [hcond, Bool.false_eq_true, if_false]
    rw [h]

theorem search_to_promote_multi_unchanged (t : Table) (svm : List (List Val)) (ch : Bool)
    (h : ∀ sv ∈ svm, search_in_rows t.rows sv = none) :
    search_to_promote_multi t svm ch = t := by
  induction svm with
  | nil => rfl
  | cons sv rest ih =>
    have hst : search_to_promote t sv ch = t :=
      search_to_promote_unchanged t sv ch (h sv (by simp))
    simp only [search_to_promote_multi, hst]
    by_cases hsub : sv.all (fun v => t.labels.contains v) = true
    · rw [if_pos (Or.inr hsub)]
    · rw [if_neg]
      · exact ih (fun s hs => h s (by simp [hs]))
      · intro hc
        rcases hc with hc | hc
        · exact hc rfl
        · exact hsub hc

theorem find_headers_success (t : Table) (svm : List (List Val))
    (hne : svm ≠ [])
    (hrect : ∀ r ∈ t.rows, r.length = t.labels.length)
    (hex : ∃ r ∈ t.rows, contains_multiple_of r svm = true) :
    ∃ ls, find_headers_to_promote t svm false = some { labels := ls, rows := t.rows } := by
  obtain ⟨r, hr, hmatch⟩ := hex
  have hrL : r.length = t.labels.length := hrect r hr
  obtain ⟨g, gs, rfl⟩ := List.exists_cons_of_ne_nil hne
  have hone : contains_one_of r g = true := by
    have hall := hmatch
    unfold contains_multiple_of at hall
    rw [List.all_cons] at hall
    exact (Bool.and_eq_true_iff.mp hall).1
  have hrne : r ≠ [] := by
    unfold contains_one_of at hone
    rw [List.any_eq_true] at hone
    obtain ⟨v, _, hvr⟩ := hone
    have hv : v ∈ r := by simpa using hvr
    exact List.ne_nil_of_mem hv
  have hL : 0 < t.labels.length := by
    rw [← hrL]
    cases r with
    | nil => exact absurd rfl hrne
    | cons a as => simp
  have hbase_ne : matchedRows t (g :: gs) ≠ [] := by
    apply List.ne_nil_of_mem (a := r)
    unfold matchedRows
    rw [List.mem_filter]
    exact ⟨hr, hmatch⟩
  have hblen : ∀ q ∈ matchedRows t (g :: gs), q.length = t.labels.length :=
    fun q hq => hrect q (List.mem_of_mem_filter hq)
  have hmin : ((matchedRows t (g :: gs)).map List.length).min? = some t.labels.length := by
    apply min?_const
    · obtain ⟨b0, bs, hb⟩ := List.exists_cons_of_ne_nil hbase_ne
      rw [hb]
      simp
    · intro x hx
      obtain ⟨q, hq, rfl⟩ := List.mem_map.mp hx
      exact hblen q hq
  have htup : pyZip (matchedRows t (g :: gs)) =
      (List.range t.labels.length).map
        (fun j => (matchedRows t (g :: gs)).map (fun rr => rr.getD j (Val.n 0))) := by
    unfold pyZip
    rw [hmin]
  have htlen : (pyZip (matchedRows t (g :: gs))).length = t.labels.length := by
    rw [htup]
    simp
  have htne : ∀ tu ∈ pyZip (matchedRows t (g :: gs)), tu ≠ [] := by
    rw [htup]
    intro tu htu
    obtain ⟨j, _, rfl⟩ := List.mem_map.mp htu
    obtain ⟨b0, bs, hb⟩ := List.exists_cons_of_ne_nil hbase_ne
    rw [hb]
    simp
  have hempt : (pyZip (matchedRows t (g :: gs))).isEmpty = false := by
    cases hz : pyZip (matchedRows t (g :: gs)) with
    | nil =>
      rw [hz] at htlen
      simp at htlen
      omega
    | cons a as => simp
  obtain ⟨ys, hys, _⟩ := first_matching_isSome ((g :: gs).flatten) (pyZip (matchedRows t (g :: gs))) htne
  refine ⟨ys, ?_⟩
  rw [find_headers_to_promote_false_eq]
  simp only [hempt, Bool.false_eq_true, if_false]
  rw [if_pos htlen, hys]

/-
Claim theorems.
-/

/-- C9 (amended): json_indexer fails with pathNotFound exactly when some step
along the path fails per stepFailsB (key absent from a mapping or an integer
used on one, position outside the Python range of a sequence or a key used on
one, a non-string scalar indexed at all, or a string scalar indexed outside
its Python range or by a key); otherwise it returns the node reached by
descending the path left to right. -/
theorem json_indexer_error_characterization :
    ∀ (nd : Node) (p : List Ix),
      (json_indexer nd p = Except.error JErr.pathNotFound ↔ failsAlongB nd p = true) ∧
      (failsAlongB nd p = false → json_indexer nd p = Except.ok (descend nd p)) := by
  intro nd p
  induction p generalizing nd with
  | nil =>
    constructor
    · constructor
      · intro h
        rw [show json_indexer nd [] = Except.ok nd from rfl] at h
        exact Except.noConfusion h
      · intro h; exact absurd h (by simp [failsAlongB])
    · intro _; rfl
  | cons ix rest ih =>
    have hstep : json_indexer nd (ix :: rest) =
        (match getStep nd ix with
         | Except.ok nd2 => json_indexer nd2 rest
         | Except.error e => Except.error e) := by
      unfold json_indexer
      rw [List.foldlM_cons]
      cases h : getStep nd ix with
      | ok nd2 => rfl
      | error e => rfl
    have hfaeq : failsAlongB nd (ix :: rest) =
        (stepFailsB nd ix ||
          (match getStep nd ix with
           | Except.ok m => failsAlongB m rest
           | Except.error _ => false)) := rfl
    have hdeeq : descend nd (ix :: rest) =
        (match getStep nd ix with
         | Except.ok m => descend m rest
         | Except.error _ => nd) := rfl
    cases hg : getStep nd ix with
    | error e =>
      have he : e = JErr.pathNotFound := by cases e; rfl
      subst he
      have hfail : stepFailsB nd ix = true := (getStep_error_iff nd ix).mp hg
      have hfa : failsAlongB nd (ix :: rest) = true := by
        rw [hfaeq, hfail]
        simp
      constructor
      · rw [hstep, hg, hfa]
        simp
      · intro hf
        rw [hfa] at hf
        exact absurd hf (by simp)
    | ok nd2 =>
      have hnofail : stepFailsB nd ix = false := by
        cases hs : stepFailsB nd ix with
        | false => rfl
        | true =>
          have herr := (getStep_error_iff nd ix).mpr hs
          rw [hg] at herr
          exact absurd herr (by simp)
      have hfa : failsAlongB nd (ix :: rest) = failsAlongB nd2 rest := by
        rw [hfaeq, hnofail, hg]
        simp
      have hde : descend nd (ix :: rest) = descend nd2 rest := by
        rw [hdeeq, hg]
      obtain ⟨ih1, ih2⟩ := ih nd2
      constructor
      · rw [hstep, hg, hfa]
        exact ih1
      · intro hf
        rw [hfa] at hf
        rw [hstep, hg, hde]
        exact ih2 hf

/-- C9 witness: a two-step descent through a mapping and a sequence succeeds
and returns the reached scalar. -/
theorem json_indexer_error_characterization_witness :
    json_indexer (Node.map [("a", Node.seq [Node.scalar (Val.n 5)])])
      [Ix.str "a", Ix.pos 0] = Except.ok (Node.scalar (Val.n 5)) := by
  exact (json_indexer_error_characterization
    (Node.map [("a", Node.seq [Node.scalar (Val.n 5)])]) [Ix.str "a", Ix.pos 0]).2 rfl

/-- C9 counterexample: indexing the string scalar xy at position 0 does not
raise; Python string subscription returns the one-character string x, so a
scalar indexed further does not always fail as the claim states. -/
theorem json_indexer_string_scalar_indexable :
    json_indexer (Node.scalar (Val.s "xy")) [Ix.pos 0] =
      Except.ok (Node.scalar (Val.s "x")) := rfl

/-- C1 counterexample: on the worked example table with groups
[(st, stanine), (rs, RawScore)], find_headers_to_promote returns a table
whose data rows are still all five original rows, not just R0, R1, R2; the
matched rows are never removed from the data. -/
theorem find_headers_keeps_matched_rows_example :
    (find_headers_to_promote mainTable mainGroups false).map Table.rows =
      some [R0, R1, R2, R3, R4] ∧
    (find_headers_to_promote mainTable mainGroups false).map Table.rows ≠
      some [R0, R1, R2] := by
  constructor
  · rfl
  · decide

/-- C1 (amended): for every rectangular table and non-empty group sequence
with at least one matching row, find_headers_to_promote succeeds and returns
a table whose data rows are ALL the original rows in original order; matched
rows contribute their values to the collapsed composite header but are not
removed from the data.  On the worked example the collapsed labels are
stanine, rs, st and the data rows are R0 through R4. -/
theorem find_headers_preserves_all_rows :
    (∀ (t : Table) (svm : List (List Val)),
       svm ≠ [] →
       (∀ r ∈ t.rows, r.length = t.labels.length) →
       (∃ r ∈ t.rows, contains_multiple_of r svm = true) →
       ∃ ls, find_headers_to_promote t svm false = some { labels := ls, rows := t.rows }) ∧
    find_headers_to_promote mainTable mainGroups false =
      some { labels := [Val.s "stanine", Val.s "rs", Val.s "st"],
             rows := [R0, R1, R2, R3, R4] } :=
  ⟨fun t svm h1 h2 h3 => find_headers_success t svm h1 h2 h3, rfl⟩

/-- C1 witness: the general statement applied to the worked example. -/
theorem find_headers_preserves_all_rows_witness :
    ∃ ls, find_headers_to_promote mainTable mainGroups false =
      some { labels := ls, rows := mainTable.rows } :=
  find_headers_preserves_all_rows.1 mainTable mainGroups (by decide) (by decide) (by decide)

/-- C2 counterexample: a table in which no row satisfies the group is not
returned unchanged by find_headers_to_promote; the call raises inside
pd.MultiIndex.from_tuples on the empty list of matched rows, modelled as
none. -/
theorem find_headers_no_match_raises_example :
    find_headers_to_promote { labels := [Val.n 0, Val.n 1], rows := [[Val.s "a", Val.s "b"]] }
      [[Val.s "x"]] false = none ∧
    find_headers_to_promote { labels := [Val.n 0, Val.n 1], rows := [[Val.s "a", Val.s "b"]] }
      [[Val.s "x"]] false ≠
      some { labels := [Val.n 0, Val.n 1], rows := [[Val.s "a", Val.s "b"]] } := by
  constructor
  · rfl
  · decide

/-- C2 (amended): on a table with no row satisfying any group,
search_to_promote_multi returns the input table unchanged, but
find_headers_to_promote (with checkExisting false) fails with an exception
rather than returning the table unchanged. -/
theorem no_match_behavior :
    (∀ (t : Table) (svm : List (List Val)) (ch : Bool),
       (∀ sv ∈ svm, ∀ r ∈ t.rows, sv.all (fun v => r.contains v) = false) →
       search_to_promote_multi t svm ch = t) ∧
    (∀ (t : Table) (svm : List (List Val)),
       (∀ r ∈ t.rows, contains_multiple_of r svm = false) →
       find_headers_to_promote t svm false = none) := by
  constructor
  · intro t svm ch h
    apply search_to_promote_multi_unchanged
    intro sv hsv
    rw [search_in_rows_eq_idxmaxMask]
    exact (idxmaxMask_eq_none_iff _ _).mpr (h sv hsv)
  · intro t svm h
    exact find_headers_no_match t svm h

/-- C2 witness: both conjuncts applied to a one-row table in which the
group (x) is satisfied by no row. -/
theorem no_match_behavior_witness :
    search_to_promote_multi { labels := [Val.n 0], rows := [[Val.s "a"]] }
      [[Val.s "x"]] false = { labels := [Val.n 0], rows := [[Val.s "a"]] } ∧
    find_headers_to_promote { labels := [Val.n 0], rows := [[Val.s "a"]] }
      [[Val.s "x"]] false = none :=
  ⟨no_match_behavior.1 { labels := [Val.n 0], rows := [[Val.s "a"]] } [[Val.s "x"]] false
      (by decide),
   no_match_behavior.2 { labels := [Val.n 0], rows := [[Val.s "a"]] } [[Val.s "x"]]
      (by decide)⟩

/-- C3: expand_and_normalize with column_filter omitted (None) never
succeeds: after inferring the keep-set as the union of all observed keys and
normalizing, the source iterates column_filter unconditionally in the final
column-selection comprehension and raises TypeError; the call crashes for
every input instead of returning the flattened columns. -/
theorem expand_and_normalize_none_filter_raises :
    ∀ (data : List Row) (multiRowData : List String),
      expand_and_normalize data none multiRowData = none :=
  fun _ _ => rfl

/-- C4 counterexample: expanding the single row with a declared two-element
attribute a and an undeclared two-element attribute b (declared multiRow set
only contains a) appends a clone in which b still holds the raw sequence
value, which by the rules should have been replaced by an empty mapping. -/
theorem expand_lists_clone_keeps_raw_seq :
    expand_lists
      [[("a", Node.seq [Node.scalar (Val.s "x"), Node.scalar (Val.s "y")]),
        ("b", Node.seq [Node.scalar (Val.s "u"), Node.scalar (Val.s "v")])]] ["a"] =
      [[("a", Node.scalar (Val.s "x")), ("b", Node.map [])],
       [("a", Node.scalar (Val.s "y")),
        ("b", Node.seq [Node.scalar (Val.s "u"), Node.scalar (Val.s "v")])]] ∧
    ((expand_lists
      [[("a", Node.seq [Node.scalar (Val.s "x"), Node.scalar (Val.s "y")]),
        ("b", Node.seq [Node.scalar (Val.s "u"), Node.scalar (Val.s "v")])]] ["a"]).drop 1).any
      rowHasRawSeq = true :=
  ⟨rfl, rfl⟩

/-- C4 (amended): each clone created for a declared multi-row attribute is a
snapshot of the row at the moment of that attribute expansion: attributes
already processed appear in processed form, the expanded attribute is set to
the element, and attributes not yet processed keep their raw values; the
clones go to the side buffer without any further processing, so raw sequence
values can survive in appended clones. -/
theorem expandEntries_clone_snapshot :
    (∀ (multi : List String) (done rest : Row) (k : String) (x y : Node) (ts : List Node),
       multi.contains k = true →
       expandEntries multi done ((k, Node.seq (x :: y :: ts)) :: rest) =
         ((expandEntries multi (done ++ [(k, x)]) rest).1,
          (y :: ts).map (fun e => done ++ (k, e) :: rest) ++
            (expandEntries multi (done ++ [(k, x)]) rest).2)) ∧
    (expand_lists
      [[("a", Node.seq [Node.scalar (Val.s "x"), Node.scalar (Val.s "y")]),
        ("b", Node.seq [Node.scalar (Val.s "u"), Node.scalar (Val.s "v")])]] ["a"]).drop 1 =
      [[("a", Node.scalar (Val.s "y")),
        ("b", Node.seq [Node.scalar (Val.s "u"), Node.scalar (Val.s "v")])]] := by
  constructor
  · intro multi done rest k x y ts h
    have hm : k ∈ multi := by simpa using h
    simp [expandEntries, hm]
  · rfl

/-- C4 witness: the snapshot equation applied to a concrete one-attribute
row. -/
theorem expandEntries_clone_snapshot_witness :
    expandEntries ["a"] [] [("a", Node.seq [Node.scalar (Val.s "x"), Node.scalar (Val.s "y")])] =
      ([("a", Node.scalar (Val.s "x"))], [[("a", Node.scalar (Val.s "y"))]]) := by
  exact expandEntries_clone_snapshot.1 ["a"] [] [] "a"
    (Node.scalar (Val.s "x")) (Node.scalar (Val.s "y")) [] rfl

/-- C5: expand_lists keeps every original row in its original position (in
processed form) and appends all fan-out rows after all original rows, never
interleaved; on the worked example the three rows come out as x in place and
y, z appended. -/
theorem expand_lists_order_stability :
    (∀ (jsonArray : List Row) (multi : List String),
       expand_lists jsonArray multi =
         jsonArray.map (fun r => (expandEntries multi [] r).1) ++
           (jsonArray.map (fun r => (expandEntries multi [] r).2)).flatten) ∧
    expand_lists
      [[("a", Node.scalar (Val.n 1)),
        ("tags", Node.seq [Node.scalar (Val.s "x"), Node.scalar (Val.s "y"),
                           Node.scalar (Val.s "z")])]] ["tags"] =
      [[("a", Node.scalar (Val.n 1)), ("tags", Node.scalar (Val.s "x"))],
       [("a", Node.scalar (Val.n 1)), ("tags", Node.scalar (Val.s "y"))],
       [("a", Node.scalar (Val.n 1)), ("tags", Node.scalar (Val.s "z"))]] :=
  ⟨expand_lists_decomp, rfl⟩

/-- C6 counterexample: the callers inputs are mutated: after expand_lists
the callers array no longer holds the original row (the empty sequence was
rewritten to an empty mapping in place), and after find_headers_to_promote
the callers table carries the new column labels. -/
theorem inputs_mutated_example :
    (expand_lists_call [[("tags", Node.seq [])]] []).2 ≠ [[("tags", Node.seq [])]] ∧
    (find_headers_to_promote_call mainTable mainGroups false).2.labels ≠ mainTable.labels := by
  constructor
  · intro h
    exact absurd (congrArg (fun l => l.any rowHasRawSeq) h) (by decide)
  · decide

/-- C6 (amended): expand_lists mutates the callers array in place and
returns that same object, and find_headers_to_promote reassigns the callers
column labels in place and returns the same frame: after a call the callers
input holds the transformed structure, not the original. -/
theorem calls_alias_their_input :
    (∀ (jsonArray : List Row) (multi : List String),
       (expand_lists_call jsonArray multi).2 = (expand_lists_call jsonArray multi).1) ∧
    (∀ (t : Table) (svm : List (List Val)) (ch : Bool) (u : Table),
       find_headers_to_promote t svm ch = some u →
       (find_headers_to_promote_call t svm ch).2 = u) ∧
    (expand_lists_call [[("tags", Node.seq [])]] []).2 = [[("tags", Node.map [])]] := by
  refine ⟨fun _ _ => rfl, ?_, rfl⟩
  intro t svm ch u h
  simp [find_headers_to_promote_call, h]

/-- C6 witness: after the worked-example call the callers table holds the
promoted labels. -/
theorem calls_alias_their_input_witness :
    (find_headers_to_promote_call mainTable mainGroups false).2 =
      { labels := [Val.s "stanine", Val.s "rs", Val.s "st"],
        rows := [R0, R1, R2, R3, R4] } :=
  calls_alias_their_input.2.1 mainTable mainGroups false
    { labels := [Val.s "stanine", Val.s "rs", Val.s "st"],
      rows := [R0, R1, R2, R3, R4] } rfl

/-- C7: while processing a row, an empty-sequence value is replaced by an
empty mapping, and a sequence of two or more elements whose key is not in
the multi-row set is replaced by an empty mapping; neither creates clones,
and end to end the example row gains no new rows. -/
theorem expand_lists_empty_and_undeclared :
    (∀ (multi : List String) (done rest : Row) (k : String),
       expandEntries multi done ((k, Node.seq []) :: rest) =
         expandEntries multi (done ++ [(k, Node.map [])]) rest) ∧
    (∀ (multi : List String) (done rest : Row) (k : String) (x y : Node) (ts : List Node),
       multi.contains k = false →
       expandEntries multi done ((k, Node.seq (x :: y :: ts)) :: rest) =
         expandEntries multi (done ++ [(k, Node.map [])]) rest) ∧
    expand_lists
      [[("a", Node.scalar (Val.n 1)),
        ("tags", Node.seq [Node.scalar (Val.s "x"), Node.scalar (Val.s "y")])]] [] =
      [[("a", Node.scalar (Val.n 1)), ("tags", Node.map [])]] := by
  refine ⟨?_, ?_, rfl⟩
  · intro multi done rest k
    simp [expandEntries]
  · intro multi done rest k x y ts h
    have hm : k ∉ multi := by simpa using h
    simp [expandEntries, hm]

/-- C7 witness: the undeclared two-element case applied concretely. -/
theorem expand_lists_empty_and_undeclared_witness :
    expandEntries [] [] [("tags", Node.seq [Node.scalar (Val.s "x"), Node.scalar (Val.s "y")])] =
      ([("tags", Node.map [])], []) := by
  exact expand_lists_empty_and_undeclared.2.1 [] [] [] "tags"
    (Node.scalar (Val.s "x")) (Node.scalar (Val.s "y")) [] rfl

/-- C8: search_in_rows returns the smallest row index whose value set
contains every search value, and none when no row qualifies, including the
empty table. -/
theorem search_in_rows_first_subset_row :
    (∀ (rows : List (List Val)) (sv : List Val) (i : Nat),
       search_in_rows rows sv = some i ↔
         i < rows.length ∧ sv.all (fun v => (rows.getD i []).contains v) = true ∧
           ∀ j, j < i → sv.all (fun v => (rows.getD j []).contains v) = false) ∧
    (∀ (rows : List (List Val)) (sv : List Val),
       search_in_rows rows sv = none ↔
         ∀ r ∈ rows, sv.all (fun v => r.contains v) = false) := by
  constructor
  · intro rows sv i
    rw [search_in_rows_eq_idxmaxMask]
    exact idxmaxMask_eq_some_iff (fun q => sv.all (fun v => q.contains v)) rows i
  · intro rows sv
    rw [search_in_rows_eq_idxmaxMask]
    exact idxmaxMask_eq_none_iff (fun q => sv.all (fun v => q.contains v)) rows

/-- C8 witness: the characterization applied to a concrete two-row table. -/
theorem search_in_rows_first_subset_row_witness :
    search_in_rows [[Val.s "a"], [Val.s "b"]] [Val.s "b"] = some 1 :=
  (search_in_rows_first_subset_row.1 [[Val.s "a"], [Val.s "b"]] [Val.s "b"] 1).mpr (by decide)

/-- C10: contains_multiple_of with an empty group sequence is vacuously true
for every value collection, so find_headers_to_promote with an empty group
sequence classifies every row of the table as a matched header row. -/
theorem contains_multiple_of_vacuous :
    (∀ (vals : List Val), contains_multiple_of vals [] = true) ∧
    (∀ (t : Table), matchedRows t [] = t.rows) := by
  refine ⟨fun _ => rfl, ?_⟩
  intro t
  unfold matchedRows
  rw [List.filter_eq_self]
  intro a _
  rfl

end Datatools
